import Mathlib

/-!
Verification of the Smart Day Scheduler (`src/app.py`).

The program has two parts relevant to the claims:

* time helpers `time_to_minutes`, `minutes_to_time`, `define_available_slots`;
* the scheduling engine `schedule_tasks`, which builds a CP-SAT model
  (start/end variables with domain `[0, 24*60]`, an interval per task,
  `AddNoOverlap` over all intervals, `AddAllowedAssignments` restricting each
  start to the union of the availability windows, and a chain of break
  constraints `next_start >= current_end + break_duration` over the tasks in
  input order), solves it, and post-processes a solution by sorting the tasks
  by start time and interleaving `"Break"` entries.

The solver is a black box whose only contract is that it returns a feasible
assignment of the model when one exists.  We therefore embed the model as a
decidable feasibility predicate `feasible` on assignments `σ : ℕ → ℤ`
(start value per input task index) and the post-processing as the function
`schedule_tasks_out`; a statement about "every returned schedule" is a
statement over all feasible assignments.

`schedule_tasks` stores its variables in a Python dict keyed by task name, so
the embedding (one variable per list position) is faithful exactly when the
task names are pairwise distinct — the data-model invariant; theorems that
quantify over inputs carry that `Nodup` hypothesis.
-/

namespace Scheduler

/-- A task as supplied to `schedule_tasks`: the tuple `(name, duration, priority)`. -/
structure Task where
  name : String
  duration : Int
  pri : Int
deriving DecidableEq, Repr

/-- `48 + d` as a character: the digit characters used by decimal rendering. -/
def digitChar (d : Nat) : Char := Char.ofNat (48 + d)

/-- Is `c` one of the characters `'0'`..`'9'`? -/
def isDigitCh (c : Char) : Bool := 48 ≤ c.toNat && c.toNat ≤ 57

/-- Numeric value of a digit character. -/
def digitVal (c : Char) : Nat := c.toNat - 48

/-- Split a character list at each `':'` (the field structure `strptime` sees
for the format `"%H:%M"`). -/
def splitColon : List Char → List (List Char)
  | [] => [[]]
  | c :: cs =>
    if c = ':' then [] :: splitColon cs
    else
      match splitColon cs with
      | f :: rest => (c :: f) :: rest
      | [] => [[c]]

/-- Parse one `strptime` numeric field of width 1 or 2 (both widths are
accepted by `%H` and `%M`). -/
def parseField (cs : List Char) : Option Nat :=
  match cs with
  | [c] => if isDigitCh c then some (digitVal c) else none
  | [c1, c2] =>
    if isDigitCh c1 && isDigitCh c2 then some (10 * digitVal c1 + digitVal c2)
    else none
  | _ => none

/-- `time_to_minutes(t)`: `datetime.strptime(t, "%H:%M")` and then
`hour * 60 + minute`.  `strptime` demands exactly two `':'`-separated numeric
fields with hour `0..23` and minute `0..59`; a `ValueError` is `none` here. -/
def time_to_minutes (s : String) : Option Int :=
  match splitColon s.data with
  | [hs, ms] =>
    match parseField hs, parseField ms with
    | some h, some m =>
      if h < 24 && m < 60 then some ((60 * h + m : Nat) : Int) else none
    | _, _ => none
  | _ => none

/-- Decimal digits of `n`, most significant first; the first argument is
structural fuel (`n + 1` suffices). -/
def natDigits : Nat → Nat → List Char
  | 0, _ => []
  | fuel + 1, n =>
    if n < 10 then [digitChar n]
    else natDigits fuel (n / 10) ++ [digitChar (n % 10)]

/-- Decimal rendering of a natural number. -/
def natToStr (n : Nat) : List Char := natDigits (n + 1) n

/-- Python's `f"{v:02d}"`: decimal rendering (with sign for negatives) padded
with `'0'` on the left up to width 2. -/
def pad02 (v : Int) : List Char :=
  let s := if v < 0 then '-' :: natToStr v.natAbs else natToStr v.toNat
  if s.length < 2 then '0' :: s else s

/-- `minutes_to_time(m)`: the Python f-string `f"{m // 60:02d}:{m % 60:02d}"`;
`//` and `%` are floor division and modulus, hence `Int.fdiv` / `Int.fmod`. -/
def minutes_to_time (m : Int) : String :=
  String.mk (pad02 (Int.fdiv m 60) ++ ':' :: pad02 (Int.fmod m 60))

/-- The canonical zero-padded rendering `HH:MM` of an hour and a minute; the
valid 24-hour clock strings are exactly `timeStr h m` for `h < 24`, `m < 60`. -/
def timeStr (h m : Nat) : String :=
  String.mk [digitChar (h / 10), digitChar (h % 10), ':',
             digitChar (m / 10), digitChar (m % 10)]

/-- `define_available_slots(slots)`: the list comprehension
`[(time_to_minutes(start), time_to_minutes(end)) for start, end in slots]`.
It performs no comparison between the two endpoints; the only failure mode is
a `ValueError` escaping from `time_to_minutes` (`none` here). -/
def define_available_slots : List (String × String) → Option (List (Int × Int))
  | [] => some []
  | (s, e) :: rest =>
    match time_to_minutes s, time_to_minutes e, define_available_slots rest with
    | some a, some b, some r => some ((a, b) :: r)
    | _, _, _ => none

/-- The constant `24 * 60` used for the variable domains in `schedule_tasks`. -/
def horizon : Int := 24 * 60

/-- Python's `range(a, b)` over integers, as a list. -/
def intRange (a b : Int) : List Int := (List.range (b - a).toNat).map (fun k => a + k)

/-- `all_times` in `schedule_tasks`: the concatenation of `range(start, end)`
over the availability windows. -/
def allTimes : List (Int × Int) → List Int
  | [] => []
  | (a, b) :: rest => intRange a b ++ allTimes rest

/-- The task at input position `i` (the tasks are keyed by distinct names, so
position `i` of the list is the `i`-th entry of the model's dict). -/
def taskAt (tasks : List Task) (i : Nat) : Task := tasks.getD i ⟨"", 0, 0⟩

/-- The CP-SAT model built by `schedule_tasks`: an assignment `σ` of start
values to task indices is feasible iff

* each start and each end (`start + duration`) lies in the declared variable
  domain `[0, 24*60]`, and the interval is well formed (`duration ≥ 0`);
* each start is an allowed value, i.e. a member of `all_times`
  (`AddAllowedAssignments`);
* the intervals are pairwise disjoint (`AddNoOverlap`);
* consecutive tasks in input order obey
  `next_start ≥ current_end + break_duration`.

The solver returns a schedule exactly when some `σ` is feasible. -/
def feasible (tasks : List Task) (slots : List (Int × Int)) (b : Int)
    (σ : Nat → Int) : Prop :=
  (∀ i, i < tasks.length →
      0 ≤ (taskAt tasks i).duration ∧
      0 ≤ σ i ∧ σ i ≤ horizon ∧
      0 ≤ σ i + (taskAt tasks i).duration ∧
      σ i + (taskAt tasks i).duration ≤ horizon ∧
      σ i ∈ allTimes slots) ∧
  (∀ i, i < tasks.length → ∀ j, j < tasks.length → i ≠ j →
      σ i + (taskAt tasks i).duration ≤ σ j ∨
      σ j + (taskAt tasks j).duration ≤ σ i) ∧
  (∀ i, i < tasks.length - 1 →
      σ i + (taskAt tasks i).duration + b ≤ σ (i + 1))

instance (tasks : List Task) (slots : List (Int × Int)) (b : Int)
    (σ : Nat → Int) : Decidable (feasible tasks slots b σ) := by
  unfold feasible; infer_instance

/-- The schedule tuple `(name, start, end)` for the task at position `i`. -/
def entryAt (tasks : List Task) (σ : Nat → Int) (i : Nat) : String × Int × Int :=
  ((taskAt tasks i).name, σ i, σ i + (taskAt tasks i).duration)

/-- The `schedule` list built from the solver values, in input order. -/
def rawSchedule (tasks : List Task) (σ : Nat → Int) : List (String × Int × Int) :=
  (List.range tasks.length).map (entryAt tasks σ)

/-- `schedule.sort(key=lambda x: x[1])`: Python's stable sort by start time. -/
def sortByStart (l : List (String × Int × Int)) : List (String × Int × Int) :=
  List.insertionSort (fun x y => x.2.1 ≤ y.2.1) l

/-- The `final_schedule` loop: after every task but the last, append the entry
`("Break", end, end + break_duration)`. -/
def insertBreaks (b : Int) : List (String × Int × Int) → List (String × Int × Int)
  | [] => []
  | [x] => [x]
  | x :: y :: rest => x :: ("Break", x.2.2, x.2.2 + b) :: insertBreaks b (y :: rest)

/-- The schedule `schedule_tasks` returns when the solver produces the
assignment `σ`. -/
def schedule_tasks_out (tasks : List Task) (b : Int) (σ : Nat → Int) :
    List (String × Int × Int) :=
  insertBreaks b (sortByStart (rawSchedule tasks σ))

/-- `schedule_tasks` returns a schedule (rather than the infeasibility
message) exactly when the model has a feasible assignment. -/
def returnsSchedule (tasks : List Task) (slots : List (Int × Int)) (b : Int) : Prop :=
  ∃ σ, feasible tasks slots b σ

/-- Modelled from the spec: the objective
"maximize `Σ weight(task.priority) × (horizon − task.start)`".
`schedule_tasks` in `src/app.py` never builds an objective (there is no
`Maximize` call), so this definition follows the specification's words; the
priority-to-weight mapping is the caller-supplied configuration `weight`. -/
def objective (weight : Int → Int) (tasks : List Task) (σ : Nat → Int) : Int :=
  ∑ i ∈ Finset.range tasks.length, weight (taskAt tasks i).pri * (horizon - σ i)

example : time_to_minutes "09:05" = some 545 := by decide
example : time_to_minutes "9:05" = some 545 := by decide
example : time_to_minutes "24:00" = none := by decide
example : time_to_minutes "09:05:00" = none := by decide
example : minutes_to_time 545 = "09:05" := by decide
example : timeStr 9 5 = "09:05" := by decide
example : allTimes [(3, 6)] = [3, 4, 5] := by decide

lemma length_rawSchedule (tasks : List Task) (σ : Nat → Int) :
    (rawSchedule tasks σ).length = tasks.length := by
  simp [rawSchedule]

lemma rawSchedule_get (tasks : List Task) (σ : Nat → Int) (i : Nat)
    (h : i < (rawSchedule tasks σ).length) :
    (rawSchedule tasks σ).get ⟨i, h⟩ = entryAt tasks σ i := by
  simp [rawSchedule]

lemma taskAt_eq_get (tasks : List Task) (i : Nat) (h : i < tasks.length) :
    taskAt tasks i = tasks.get ⟨i, h⟩ := by
  unfold taskAt
  rw [List.getD_eq_getElem tasks _ h]
  simp

/-- The solver values come out of `schedule_tasks` in input order with
nondecreasing start times: the chained break constraints force each next
start past the previous start (durations are nonnegative in any feasible
assignment, and the break is nonnegative). -/
lemma sorted_rawSchedule {tasks : List Task} {slots : List (Int × Int)}
    {b : Int} {σ : Nat → Int} (hb : 0 ≤ b) (hf : feasible tasks slots b σ) :
    List.Sorted (fun x y : String × Int × Int => x.2.1 ≤ y.2.1)
      (rawSchedule tasks σ) := by
  haveI : IsTrans (String × Int × Int) (fun x y => x.2.1 ≤ y.2.1) :=
    ⟨fun _ _ _ => le_trans⟩
  rw [List.Sorted, ← List.chain'_iff_pairwise, List.chain'_iff_get]
  intro i hlt
  rw [rawSchedule_get, rawSchedule_get]
  obtain ⟨hdom, -, hchain⟩ := hf
  have hi : i < tasks.length - 1 := by
    simpa [length_rawSchedule] using hlt
  have h1 := hchain i hi
  have hd := (hdom i (by omega)).1
  simp only [entryAt]
  omega

/-- Under the model's chain constraints the Python `schedule.sort` is the
identity: the raw schedule is already sorted by start time. -/
lemma sortByStart_eq_of_feasible {tasks : List Task} {slots : List (Int × Int)}
    {b : Int} {σ : Nat → Int} (hb : 0 ≤ b) (hf : feasible tasks slots b σ) :
    sortByStart (rawSchedule tasks σ) = rawSchedule tasks σ :=
  List.Sorted.insertionSort_eq (sorted_rawSchedule hb hf)

lemma insertBreaks_cons_head (b : Int) (y : String × Int × Int)
    (rest : List (String × Int × Int)) :
    ∃ tl, insertBreaks b (y :: rest) = y :: tl := by
  cases rest <;> simp [insertBreaks]

/-- Interleaving the break entries preserves the wall-to-wall ordering: in
the final schedule every entry is well formed and ends no later than the next
entry starts. -/
lemma chain'_insertBreaks (b : Int) (hb : 0 ≤ b) :
    ∀ l : List (String × Int × Int), (∀ x ∈ l, x.2.1 ≤ x.2.2) →
      List.Chain' (fun x y => x.2.2 + b ≤ y.2.1) l →
      List.Chain' (fun x y => x.2.1 ≤ x.2.2 ∧ x.2.2 ≤ y.2.1) (insertBreaks b l) := by
  intro l
  induction l with
  | nil => intro _ _; simp [insertBreaks]
  | cons x l ih =>
    intro hwf hc
    cases l with
    | nil => simp [insertBreaks]
    | cons y rest =>
      obtain ⟨hxy, hc'⟩ := List.chain'_cons.mp hc
      obtain ⟨tl, htl⟩ := insertBreaks_cons_head b y rest
      rw [insertBreaks, List.chain'_cons, htl, List.chain'_cons]
      refine ⟨⟨hwf x (by simp), le_refl _⟩, ⟨by simpa using hb, hxy⟩, ?_⟩
      rw [← htl]
      exact ih (fun z hz => hwf z (List.mem_cons_of_mem x hz)) hc'

/-- C1: the claim "every task interval `[start, end]` of a returned schedule
lies entirely within one supplied availability window" fails on the code: the
model restricts only the START to an availability window, never the end.  A
single 120-minute task with the single window 09:00–10:00 gives a satisfiable
model (so a schedule is returned) whose interval `[540, 660]` cannot lie in
the 60-minute window: the schedule runs an hour past the declared
availability. -/
theorem c1_interval_escapes_window :
    feasible [⟨"Study", 120, 1⟩] [(540, 600)] 10 (fun _ => 540) ∧
    schedule_tasks_out [⟨"Study", 120, 1⟩] 10 (fun _ => 540) =
      [("Study", 540, 660)] ∧
    ¬ ∃ w ∈ [((540 : Int), (600 : Int))], w.1 ≤ 540 ∧ 660 ≤ w.2 :=
  ⟨by decide, by decide, by decide⟩

/-- C2: the claim "Scenario A (tasks 30/120/60, one window 09:00–12:00, hard
break 10) is infeasible" fails on the code: because only the starts are
confined to the window, the assignment Emails 540–570, Study 580–700,
Workout 710–770 satisfies every model constraint (Workout merely spills past
the window end 720), so `schedule_tasks` returns a schedule rather than the
infeasibility message. -/
theorem c2_scenarioA_is_satisfiable :
    feasible [⟨"Emails", 30, 1⟩, ⟨"Study", 120, 3⟩, ⟨"Workout", 60, 2⟩]
      [(540, 720)] 10 (fun i => [540, 580, 710].getD i 0) ∧
    schedule_tasks_out [⟨"Emails", 30, 1⟩, ⟨"Study", 120, 3⟩, ⟨"Workout", 60, 2⟩]
      10 (fun i => [540, 580, 710].getD i 0) =
      [("Emails", 540, 570), ("Break", 570, 580), ("Study", 580, 700),
       ("Break", 700, 710), ("Workout", 710, 770)] ∧
    returnsSchedule [⟨"Emails", 30, 1⟩, ⟨"Study", 120, 3⟩, ⟨"Workout", 60, 2⟩]
      [(540, 720)] 10 :=
  ⟨by decide, by decide, ⟨fun i => [540, 580, 710].getD i 0, by decide⟩⟩

/-- C3: the claim "the solve procedure returns an assignment maximizing
`Σ weight(priority) × (horizon − start)`" fails on the code: `schedule_tasks`
never builds an objective (no `Maximize` call), so the solver's contract only
guarantees some feasible assignment.  For a single 30-minute task in the
window 09:00–12:00, start 600 and start 540 are both feasible — either may be
returned — yet start 600 has a strictly smaller objective value than start
540 for every choice of weights with positive weight at the task's
priority (here weight ≡ 1). -/
theorem c3_no_objective_in_model :
    feasible [⟨"A", 30, 1⟩] [(540, 720)] 10 (fun _ => 600) ∧
    feasible [⟨"A", 30, 1⟩] [(540, 720)] 10 (fun _ => 540) ∧
    objective (fun _ => 1) [⟨"A", 30, 1⟩] (fun _ => 600) <
      objective (fun _ => 1) [⟨"A", 30, 1⟩] (fun _ => 540) :=
  ⟨by decide, by decide, by decide⟩

/-- C4: in a returned schedule, every consecutive pair of scheduled tasks in
start-time order is separated by at least the break duration.  The model adds
`next_start ≥ current_end + break_duration` along the input order, and any
feasible assignment is thereby already sorted by start, so the constraint
carries over to the sorted order. -/
theorem c4_hard_break_gaps (tasks : List Task) (slots : List (Int × Int))
    (b : Int) (σ : Nat → Int) (_hname : (tasks.map Task.name).Nodup)
    (hb : 0 ≤ b) (hf : feasible tasks slots b σ) :
    List.Chain' (fun x y => b ≤ y.2.1 - x.2.2) (sortByStart (rawSchedule tasks σ)) := by
  rw [sortByStart_eq_of_feasible hb hf, List.chain'_iff_get]
  intro i hlt
  rw [rawSchedule_get, rawSchedule_get]
  obtain ⟨-, -, hchain⟩ := hf
  have hi : i < tasks.length - 1 := by
    simpa [length_rawSchedule] using hlt
  have h1 := hchain i hi
  simp only [entryAt]
  omega

/-- Witness for C4 at a concrete input: two tasks in the window 09:00–12:00
with a 10-minute break. -/
theorem c4_hard_break_gaps_witness :
    ((([⟨"A", 30, 1⟩, ⟨"B", 60, 2⟩] : List Task).map Task.name).Nodup) ∧
    (0 : Int) ≤ 10 ∧
    feasible [⟨"A", 30, 1⟩, ⟨"B", 60, 2⟩] [(540, 720)] 10
      (fun i => [540, 580].getD i 0) ∧
    List.Chain' (fun x y => (10 : Int) ≤ y.2.1 - x.2.2)
      (sortByStart (rawSchedule [⟨"A", 30, 1⟩, ⟨"B", 60, 2⟩]
        (fun i => [540, 580].getD i 0))) :=
  ⟨by decide, by decide, by decide,
   c4_hard_break_gaps _ [(540, 720)] _ _ (by decide) (by decide) (by decide)⟩

/-- C5: no two entries of the final schedule — task entries and inserted
`"Break"` entries alike — overlap as half-open `[start, end)` ranges. -/
theorem c5_entries_disjoint (tasks : List Task) (slots : List (Int × Int))
    (b : Int) (σ : Nat → Int) (_hname : (tasks.map Task.name).Nodup)
    (hb : 0 ≤ b) (hf : feasible tasks slots b σ) :
    List.Pairwise (fun x y => ¬(x.2.1 < y.2.2 ∧ y.2.1 < x.2.2))
      (schedule_tasks_out tasks b σ) := by
  haveI : IsTrans (String × Int × Int) (fun x y => x.2.1 ≤ x.2.2 ∧ x.2.2 ≤ y.2.1) :=
    ⟨fun _ _ _ hab hbc => ⟨hab.1, le_trans (le_trans hab.2 hbc.1) hbc.2⟩⟩
  have hchain : List.Chain' (fun x y => x.2.1 ≤ x.2.2 ∧ x.2.2 ≤ y.2.1)
      (insertBreaks b (rawSchedule tasks σ)) := by
    apply chain'_insertBreaks b hb
    · intro x hx
      obtain ⟨i, hi, rfl⟩ : ∃ i, i < tasks.length ∧ entryAt tasks σ i = x := by
        simpa [rawSchedule, List.mem_map, List.mem_range] using hx
      have hd := (hf.1 i hi).1
      simp only [entryAt]
      omega
    · rw [List.chain'_iff_get]
      intro i hlt
      rw [rawSchedule_get, rawSchedule_get]
      obtain ⟨-, -, hchain⟩ := hf
      have hi : i < tasks.length - 1 := by
        simpa [length_rawSchedule] using hlt
      have h1 := hchain i hi
      simp only [entryAt]
      omega
  unfold schedule_tasks_out
  rw [sortByStart_eq_of_feasible hb hf]
  exact (List.chain'_iff_pairwise.mp hchain).imp
    (fun h hcon => absurd hcon.2 (not_lt.mpr h.2))

/-- Witness for C5 at a concrete input: two tasks separated by a 5-minute
break in the window 09:00–12:00. -/
theorem c5_entries_disjoint_witness :
    ((([⟨"Emails", 30, 3⟩, ⟨"Workout", 60, 2⟩] : List Task).map Task.name).Nodup) ∧
    (0 : Int) ≤ 5 ∧
    feasible [⟨"Emails", 30, 3⟩, ⟨"Workout", 60, 2⟩] [(540, 720)] 5
      (fun i => [540, 575].getD i 0) ∧
    List.Pairwise (fun x y => ¬(x.2.1 < y.2.2 ∧ y.2.1 < x.2.2))
      (schedule_tasks_out [⟨"Emails", 30, 3⟩, ⟨"Workout", 60, 2⟩] 5
        (fun i => [540, 575].getD i 0)) :=
  ⟨by decide, by decide, by decide,
   c5_entries_disjoint _ [(540, 720)] _ _ (by decide) (by decide) (by decide)⟩

/-- C9: when every duration is positive and the break is nonnegative, the
scheduled tasks appear in the output in exactly the input order: the chained
break constraints make the start times nondecreasing along the input order,
so the (stable) sort by start time is the identity and the names read off the
sorted schedule are the input names in order. -/
theorem c9_input_order_preserved (tasks : List Task) (slots : List (Int × Int))
    (b : Int) (σ : Nat → Int) (_hname : (tasks.map Task.name).Nodup)
    (_hd : ∀ t ∈ tasks, 0 < t.duration) (hb : 0 ≤ b)
    (hf : feasible tasks slots b σ) :
    sortByStart (rawSchedule tasks σ) = rawSchedule tasks σ ∧
    (sortByStart (rawSchedule tasks σ)).map (fun e => e.1) = tasks.map Task.name := by
  have h1 := sortByStart_eq_of_feasible hb hf
  refine ⟨h1, ?_⟩
  rw [h1]
  apply List.ext_getElem
  · simp [rawSchedule]
  · intro i h1' h2'
    have hi : i < tasks.length := by
      simpa [rawSchedule] using h1'
    simp [rawSchedule, entryAt, taskAt_eq_get tasks i hi]

/-- Witness for C9 at a concrete input: two tasks scheduled back to back with
a zero break. -/
theorem c9_input_order_preserved_witness :
    ((([⟨"X", 20, 1⟩, ⟨"Y", 30, 2⟩] : List Task).map Task.name).Nodup) ∧
    (∀ t ∈ ([⟨"X", 20, 1⟩, ⟨"Y", 30, 2⟩] : List Task), 0 < t.duration) ∧
    (0 : Int) ≤ 0 ∧
    feasible [⟨"X", 20, 1⟩, ⟨"Y", 30, 2⟩] [(540, 720)] 0
      (fun i => [600, 620].getD i 0) ∧
    (sortByStart (rawSchedule [⟨"X", 20, 1⟩, ⟨"Y", 30, 2⟩]
        (fun i => [600, 620].getD i 0))).map (fun e => e.1) =
      ([⟨"X", 20, 1⟩, ⟨"Y", 30, 2⟩] : List Task).map Task.name :=
  ⟨by decide, by decide, by decide, by decide,
   (c9_input_order_preserved _ [(540, 720)] 0 _ (by decide) (by decide)
     (by decide) (by decide)).2⟩

/-- Changing the weight mapping only at the priority of task `T` (a priority
no other task carries) shifts the objective of every assignment by exactly
the weight difference times `horizon - start of T`. -/
lemma objective_shift (weight weight' : Int → Int) (tasks : List Task)
    (T : Nat) (hT : T < tasks.length)
    (huniq : ∀ j, j < tasks.length → j ≠ T →
      (taskAt tasks j).pri ≠ (taskAt tasks T).pri)
    (hsame : ∀ p, p ≠ (taskAt tasks T).pri → weight' p = weight p)
    (σ : Nat → Int) :
    objective weight' tasks σ =
      objective weight tasks σ +
        (weight' (taskAt tasks T).pri - weight (taskAt tasks T).pri) * (horizon - σ T) := by
  unfold objective
  have hcongr : ∀ i ∈ Finset.range tasks.length,
      weight' (taskAt tasks i).pri * (horizon - σ i) =
        weight (taskAt tasks i).pri * (horizon - σ i) +
          (if i = T then
            (weight' (taskAt tasks T).pri - weight (taskAt tasks T).pri) *
              (horizon - σ T)
          else 0) := by
    intro i hi
    by_cases hiT : i = T
    · subst hiT
      rw [if_pos rfl]
      ring
    · rw [hsame _ (huniq i (Finset.mem_range.mp hi) hiT), if_neg hiT, add_zero]
  rw [Finset.sum_congr rfl hcongr, Finset.sum_add_distrib,
    Finset.sum_ite_eq' (Finset.range tasks.length) T, if_pos (Finset.mem_range.mpr hT)]

/-- C6: strictly raising the weight of the priority carried by task `T` alone
(all other input data unchanged) never moves `T` to a strictly later start in
an optimal solution: for any assignment optimal for the original weights and
any assignment optimal for the raised weights, `T` starts no later in the
latter.  Optimality is with respect to the specification's objective
`objective` over the feasible set of the code's model. -/
theorem c6_priority_weight_monotone (tasks : List Task)
    (slots : List (Int × Int)) (b : Int) (weight weight' : Int → Int)
    (T : Nat) (hT : T < tasks.length)
    (_hname : (tasks.map Task.name).Nodup)
    (huniq : ∀ j, j < tasks.length → j ≠ T →
      (taskAt tasks j).pri ≠ (taskAt tasks T).pri)
    (hraise : weight (taskAt tasks T).pri < weight' (taskAt tasks T).pri)
    (hsame : ∀ p, p ≠ (taskAt tasks T).pri → weight' p = weight p)
    (σ σ' : Nat → Int)
    (hfeas : feasible tasks slots b σ)
    (hopt : ∀ τ, feasible tasks slots b τ →
      objective weight tasks τ ≤ objective weight tasks σ)
    (hfeas' : feasible tasks slots b σ')
    (hopt' : ∀ τ, feasible tasks slots b τ →
      objective weight' tasks τ ≤ objective weight' tasks σ') :
    σ' T ≤ σ T := by
  have e1 := hopt σ' hfeas'
  have e2 := hopt' σ hfeas
  rw [objective_shift weight weight' tasks T hT huniq hsame σ,
      objective_shift weight weight' tasks T hT huniq hsame σ'] at e2
  by_contra hcon
  push_neg at hcon
  have h3 : 0 < weight' (taskAt tasks T).pri - weight (taskAt tasks T).pri := by
    linarith
  nlinarith [mul_pos h3 (sub_pos.mpr hcon)]

/-- Witness for C6 at a concrete input: a single 2-minute task in the window
00:00–00:03; both with weight 1 and with its weight raised to 2, the start 0
is optimal, and the monotone comparison holds there. -/
theorem c6_priority_weight_monotone_witness :
    0 < ([⟨"A", 2, 1⟩] : List Task).length ∧
    ((([⟨"A", 2, 1⟩] : List Task).map Task.name).Nodup) ∧
    (∀ j, j < ([⟨"A", 2, 1⟩] : List Task).length → j ≠ 0 →
      (taskAt [⟨"A", 2, 1⟩] j).pri ≠ (taskAt [⟨"A", 2, 1⟩] 0).pri) ∧
    ((fun _ : Int => (1 : Int)) (taskAt [⟨"A", 2, 1⟩] 0).pri <
      (fun p : Int => if p = 1 then (2 : Int) else 1) (taskAt [⟨"A", 2, 1⟩] 0).pri) ∧
    (∀ p, p ≠ (taskAt [⟨"A", 2, 1⟩] 0).pri →
      (fun p : Int => if p = 1 then (2 : Int) else 1) p = (fun _ : Int => (1 : Int)) p) ∧
    feasible [⟨"A", 2, 1⟩] [(0, 3)] 0 (fun _ => 0) ∧
    (∀ τ, feasible [⟨"A", 2, 1⟩] [(0, 3)] 0 τ →
      objective (fun _ => 1) [⟨"A", 2, 1⟩] τ ≤
        objective (fun _ => 1) [⟨"A", 2, 1⟩] (fun _ => 0)) ∧
    (∀ τ, feasible [⟨"A", 2, 1⟩] [(0, 3)] 0 τ →
      objective (fun p => if p = 1 then 2 else 1) [⟨"A", 2, 1⟩] τ ≤
        objective (fun p => if p = 1 then 2 else 1) [⟨"A", 2, 1⟩] (fun _ => 0)) ∧
    (fun _ : Nat => (0 : Int)) 0 ≤ (fun _ : Nat => (0 : Int)) 0 := by
  have hopt1 : ∀ τ, feasible [⟨"A", 2, 1⟩] [(0, 3)] 0 τ →
      objective (fun _ => 1) [⟨"A", 2, 1⟩] τ ≤
        objective (fun _ => 1) [⟨"A", 2, 1⟩] (fun _ => 0) := by
    intro τ hf
    have h0 := (hf.1 0 (by norm_num)).2.1
    simp only [objective, Finset.range_one, Finset.sum_singleton]
    have : horizon - τ 0 ≤ horizon - 0 := by omega
    simpa using this
  have hopt2 : ∀ τ, feasible [⟨"A", 2, 1⟩] [(0, 3)] 0 τ →
      objective (fun p => if p = 1 then 2 else 1) [⟨"A", 2, 1⟩] τ ≤
        objective (fun p => if p = 1 then 2 else 1) [⟨"A", 2, 1⟩] (fun _ => 0) := by
    intro τ hf
    have h0 := (hf.1 0 (by norm_num)).2.1
    have hlen : ([⟨"A", 2, 1⟩] : List Task).length = 1 := rfl
    simp only [objective, hlen, Finset.range_one, Finset.sum_singleton]
    have hw : (taskAt [⟨"A", 2, 1⟩] 0).pri = 1 := rfl
    rw [hw, if_pos rfl]
    omega
  exact ⟨by decide, by decide, by decide, by decide,
    fun p hp => if_neg hp, by decide, hopt1, hopt2,
    c6_priority_weight_monotone [⟨"A", 2, 1⟩] [(0, 3)] 0 (fun _ => 1)
      (fun p => if p = 1 then 2 else 1) 0 (by decide) (by decide) (by decide)
      (by decide) (fun p hp => if_neg hp) (fun _ => 0) (fun _ => 0)
      (by decide) hopt1 (by decide) hopt2⟩

/-- C7: parsing a valid zero-padded 24-hour clock string and formatting the
result gives the string back: `minutes_to_time (time_to_minutes s) = s` for
every `s = timeStr h m` with `h < 24` and `m < 60` — and these are exactly
the valid `HH:MM` strings. -/
theorem c7_clock_roundtrip : ∀ h, h < 24 → ∀ m, m < 60 →
    (time_to_minutes (timeStr h m)).map minutes_to_time = some (timeStr h m) := by
  decide

/-- Witness for C7 at the concrete clock string `09:30`. -/
theorem c7_clock_roundtrip_witness :
    9 < 24 ∧ 30 < 60 ∧
    (time_to_minutes (timeStr 9 30)).map minutes_to_time = some (timeStr 9 30) :=
  ⟨by decide, by decide, c7_clock_roundtrip 9 (by decide) 30 (by decide)⟩

/-- C8 counterexample: the claim "`define_available_slots` fails with an
`InvalidWindow` error for every pair whose start minute is at least its end
minute" is false at the pair `("12:00", "09:00")`: the function performs no
comparison of the endpoints and returns the converted pair `(720, 540)`
normally instead of failing. -/
theorem c8_reversed_window_not_rejected :
    define_available_slots [("12:00", "09:00")] = some [(720, 540)] := by
  decide

/-- C8 amended: `define_available_slots` converts each `(start_text,
end_text)` pair to minute offsets unconditionally; no `start < end` check
exists, so a pair whose parsed start is at least its parsed end is converted
like any other (the only failure mode is a malformed time string). -/
theorem c8_conversion_without_window_check (s e : String) (ms me : Int)
    (hs : time_to_minutes s = some ms) (he : time_to_minutes e = some me)
    (_hge : me ≤ ms) :
    define_available_slots [(s, e)] = some [(ms, me)] := by
  simp [define_available_slots, hs, he]

/-- Witness for the amended C8 at the reversed pair `("12:00", "09:00")`. -/
theorem c8_conversion_without_window_check_witness :
    time_to_minutes "12:00" = some 720 ∧ time_to_minutes "09:00" = some 540 ∧
    (540 : Int) ≤ 720 ∧
    define_available_slots [("12:00", "09:00")] = some [(720, 540)] :=
  ⟨by decide, by decide, by decide,
   c8_conversion_without_window_check "12:00" "09:00" 720 540
     (by decide) (by decide) (by decide)⟩

/-- C10: the result of `schedule_tasks` does not depend on the priority
components of the tasks: for two inputs identical except in priorities, the
feasible sets coincide, the post-processed output coincides assignment for
assignment, and one returns a schedule iff the other does.  The code reads
`priority` out of each tuple and never uses it. -/
theorem c10_priority_independent (tasks1 tasks2 : List Task)
    (slots : List (Int × Int)) (b : Int)
    (_hname : (tasks1.map Task.name).Nodup)
    (h : tasks1.map (fun t => (t.name, t.duration)) =
      tasks2.map (fun t => (t.name, t.duration))) :
    (∀ σ, feasible tasks1 slots b σ ↔ feasible tasks2 slots b σ) ∧
    (∀ σ, schedule_tasks_out tasks1 b σ = schedule_tasks_out tasks2 b σ) ∧
    (returnsSchedule tasks1 slots b ↔ returnsSchedule tasks2 slots b) := by
  have hlen : tasks1.length = tasks2.length := by
    have := congrArg List.length h
    simpa using this
  have hkey : ∀ i, (taskAt tasks1 i).name = (taskAt tasks2 i).name ∧
      (taskAt tasks1 i).duration = (taskAt tasks2 i).duration := by
    intro i
    have h1 : (tasks1.map (fun t : Task => (t.name, t.duration))).getD i
        ((fun t : Task => (t.name, t.duration)) ⟨"", 0, 0⟩) =
        (tasks2.map (fun t : Task => (t.name, t.duration))).getD i
        ((fun t : Task => (t.name, t.duration)) ⟨"", 0, 0⟩) := by rw [h]
    rw [List.getD_map tasks1 _ _, List.getD_map tasks2 _ _] at h1
    exact ⟨congrArg Prod.fst h1, congrArg Prod.snd h1⟩
  have hdur : ∀ i, (taskAt tasks1 i).duration = (taskAt tasks2 i).duration :=
    fun i => (hkey i).2
  have hfe : ∀ σ, feasible tasks1 slots b σ ↔ feasible tasks2 slots b σ := by
    intro σ
    unfold feasible
    simp only [hdur, hlen]
  have hentry : ∀ σ : Nat → Int, entryAt tasks1 σ = entryAt tasks2 σ := by
    intro σ
    funext i
    simp only [entryAt, (hkey i).1, hdur i]
  have hout : ∀ σ, schedule_tasks_out tasks1 b σ = schedule_tasks_out tasks2 b σ := by
    intro σ
    unfold schedule_tasks_out rawSchedule
    rw [hlen, hentry σ]
  exact ⟨hfe, hout, exists_congr fun σ => hfe σ⟩

/-- Witness for C10: the same single task with priority 1 and with
priority 7. -/
theorem c10_priority_independent_witness :
    ((([⟨"A", 30, 1⟩] : List Task).map Task.name).Nodup) ∧
    (([⟨"A", 30, 1⟩] : List Task).map (fun t => (t.name, t.duration)) =
      ([⟨"A", 30, 7⟩] : List Task).map (fun t => (t.name, t.duration))) ∧
    ((∀ σ, feasible [⟨"A", 30, 1⟩] [(540, 720)] 10 σ ↔
        feasible [⟨"A", 30, 7⟩] [(540, 720)] 10 σ) ∧
      (∀ σ, schedule_tasks_out [⟨"A", 30, 1⟩] 10 σ =
        schedule_tasks_out [⟨"A", 30, 7⟩] 10 σ) ∧
      (returnsSchedule [⟨"A", 30, 1⟩] [(540, 720)] 10 ↔
        returnsSchedule [⟨"A", 30, 7⟩] [(540, 720)] 10)) :=
  ⟨by decide, by decide,
   c10_priority_independent [⟨"A", 30, 1⟩] [⟨"A", 30, 7⟩] [(540, 720)] 10
     (by decide) (by decide)⟩

end Scheduler
